import Mathlib

set_option linter.unusedVariables false

/-!
Shallow embedding of the JSON mutation engine of `src/main.py`
(class `JSONMutator`): the recursive schema-walking traversal
`_mutate_recursive` together with the per-type mutation strategies
`_mutate_string`, `_mutate_integer`, `_mutate_number`, `_mutate_boolean`
and the public entry point `mutate`.

Modelling conventions:
* Python values (both schema trees and sample trees are plain parsed JSON
  values in the source) are modelled by `JVal`.
* Python's global random state is modelled by an explicit generator `Gen`
  holding a stream of natural draws (for `random.choice` / `random.randint`)
  and a stream of rational draws (for `random.uniform`).  `randint a b`
  realizes every value of `{a, ..., b}`, `uniform a b` every rational of
  `[a, b)`, matching the ideal semantics of the corresponding Python calls.
* Python floats are idealized as exact rationals plus `inf`, `-inf`, `nan`.
* A Python exception is an `Except.error` carrying the exception class and
  the generator state at the raise point; `try/except` blocks in the source
  become matches on that error value.
* The recursion of `_mutate_recursive` descends strictly into subterms of
  the data argument, so it is realized with a fuel parameter initialized to
  `JVal.size data`; fuel exhaustion (which `go_irrel` below shows to be
  unreachable at that initial fuel) is modelled as Python's
  `RecursionError`.
-/

namespace JSONMutator

/-- Python exception classes raised or caught by the engine. -/
inductive PyErr where
  | typeError
  | attributeError
  | keyError
  | zeroDivisionError
  | overflowError
  | recursionError
  deriving DecidableEq

/-- Python floats, idealized: finite values are exact rationals, plus the
special values that the number mutation strategies can produce. -/
inductive PyFloat where
  | finite (q : ℚ)
  | inf
  | negInf
  | nan
  deriving DecidableEq

/-- Parsed JSON values as produced by `json.load` in `main.py`:
`None`, `bool`, `int`, `float`, `str`, `list`, `dict`. -/
inductive JVal where
  | null
  | bool (b : Bool)
  | int (n : Int)
  | num (x : PyFloat)
  | str (s : String)
  | arr (elems : List JVal)
  | obj (fields : List (String × JVal))

/-- The global random state: a stream of natural draws and a stream of
rational draws, with the positions consumed so far. -/
structure Gen where
  nats : Nat → Nat
  rats : Nat → ℚ
  npos : Nat
  rpos : Nat

/-- Consume one natural draw. -/
def Gen.nextNat (g : Gen) : Nat × Gen :=
  (g.nats g.npos, { g with npos := g.npos + 1 })

/-- Consume one rational draw. -/
def Gen.nextRat (g : Gen) : ℚ × Gen :=
  (g.rats g.rpos, { g with rpos := g.rpos + 1 })

/-- Model of `random.randint(a, b)` (both endpoints included): the raw
natural draw is mapped into `{a, ..., b}`. -/
def randint (a b : Nat) (g : Gen) : Nat × Gen :=
  let (n, g') := g.nextNat
  (a + n % (b + 1 - a), g')

/-- Model of `random.choice` on a sequence of `n` elements: the chosen
index in `[0, n)`. -/
def choiceIdx (n : Nat) (g : Gen) : Nat × Gen :=
  let (k, g') := g.nextNat
  (k % n, g')

/-- Model of `random.uniform(a, b)`: `a + (b - a) * r` with `r ∈ [0, 1)`
obtained as the fractional part of the raw rational draw. -/
def uniform (a b : ℚ) (g : Gen) : ℚ × Gen :=
  let (q, g') := g.nextRat
  (a + (b - a) * (q - (q.floor : ℚ)), g')

/-- Result of a mutation step: either a value with the advanced random
state, or a raised exception with the random state at the raise point. -/
abbrev MutResult := Except (PyErr × Gen) (JVal × Gen)

/-- Whether an `Except` result is a success. -/
def exOk : Except ε α → Bool
  | .ok _ => true
  | .error _ => false

/-- Whether an `Except` result is a raised exception. -/
def exErr : Except ε α → Bool
  | .ok _ => false
  | .error _ => true

/-- The successful value of a mutation result, if any. -/
def resultVal : MutResult → Option JVal
  | .ok (v, _) => some v
  | .error _ => none

/-- Attach the current generator state to a pure strategy outcome. -/
def liftE (g : Gen) : Except PyErr JVal → MutResult
  | .ok v => .ok (v, g)
  | .error e => .error (e, g)

/-! ### String helpers for the strategy lambdas -/

/-- Python string repetition `s * n`. -/
def strRepeat (s : String) (n : Nat) : String :=
  String.join (List.replicate n s)

/-- Python list repetition `l * n`. -/
def listRepeat (l : List JVal) (n : Nat) : List JVal :=
  (List.replicate n l).flatten

/-- A single quote character, as occurring in the injection payloads. -/
def squote : String := String.mk [Char.ofNat 39]

/-- The XSS payload appended by the script-injection strategy. -/
def xssPayload : String :=
  "<script>alert(" ++ squote ++ "XSS" ++ squote ++ ")</script>"

/-- The SQL-injection fragment appended by the SQL strategy. -/
def sqlPayload : String :=
  squote ++ " OR " ++ squote ++ "1" ++ squote ++ "=" ++ squote ++ "1"

/-- A single NUL byte. -/
def nulByte : String := String.mk [Char.ofNat 0]

/-- Python `s + "!" * k`: the bang string of length `k`. -/
def bangs (k : Nat) : String := strRepeat (String.mk [Char.ofNat 33]) k

/-- Model of `random.choice('abcdefghijklmnopqrstuvwxyz')` repeated `n`
times: a list of `n` random lowercase letters. -/
def randLower : Nat → Gen → List Char × Gen
  | 0, g => ([], g)
  | n + 1, g =>
    let (c, g') := g.nextNat
    let (rest, g'') := randLower n g'
    (Char.ofNat (97 + c % 26) :: rest, g'')

/-- Python `s + t` where `t` is a string literal: succeeds exactly when the
left operand is a string, otherwise `TypeError`. -/
def appendStr (data : JVal) (t : String) : Except PyErr JVal :=
  match data with
  | .str s => .ok (.str (s ++ t))
  | _ => .error .typeError

/-! ### `_mutate_string` (src/main.py lines 116-137) -/

/-- One of the eight string strategy lambdas, applied to the (dynamically
typed) argument.  Indices follow the order of `mutation_strategies` in
`_mutate_string`; each branch realizes the Python runtime behaviour of the
lambda on every possible argument type. -/
def string_strategy (i : Nat) (data : JVal) (g : Gen) : MutResult :=
  if i = 0 then
    -- lambda s: s + "!" * random.randint(1, 5)
    let (k, g') := randint 1 5 g
    liftE g' (appendStr data (bangs k))
  else if i = 1 then
    -- lambda s: s.upper()
    liftE g (match data with
      | .str s => .ok (.str s.toUpper)
      | _ => .error .attributeError)
  else if i = 2 then
    -- lambda s: s.lower()
    liftE g (match data with
      | .str s => .ok (.str s.toLower)
      | _ => .error .attributeError)
  else if i = 3 then
    -- lambda s: s[::-1]  (slicing also reverses lists)
    liftE g (match data with
      | .str s => .ok (.str (String.mk s.data.reverse))
      | .arr es => .ok (.arr es.reverse)
      | _ => .error .typeError)
  else if i = 4 then
    -- lambda s: s + "<script>alert('XSS')</script>"
    liftE g (appendStr data xssPayload)
  else if i = 5 then
    -- lambda s: s + "' OR '1'='1"
    liftE g (appendStr data sqlPayload)
  else if i = 6 then
    -- lambda s: s + "\0"
    liftE g (appendStr data nulByte)
  else
    -- lambda s: ''.join(random.choice(...) for _ in range(random.randint(5, 15)))
    let (n, g') := randint 5 15 g
    let r := randLower n g'
    .ok (.str (String.mk r.1), r.2)

/-- `_mutate_string`: choose one of the eight strategies uniformly and
apply it. -/
def mutate_string (data : JVal) (g : Gen) : MutResult :=
  let (i, g') := choiceIdx 8 g
  string_strategy i data g'

/-! ### `_mutate_integer` (src/main.py lines 139-162) -/

/-- Python `bool` as an integer operand. -/
def intOf (b : Bool) : Int := if b then 1 else 0

/-- `PyFloat` plus a rational (Python `float + int/float`). -/
def PyFloat.addQ : PyFloat → ℚ → PyFloat
  | .finite q, u => .finite (q + u)
  | .inf, _ => .inf
  | .negInf, _ => .negInf
  | .nan, _ => .nan

/-- `PyFloat` minus a rational. -/
def PyFloat.subQ : PyFloat → ℚ → PyFloat
  | .finite q, u => .finite (q - u)
  | .inf, _ => .inf
  | .negInf, _ => .negInf
  | .nan, _ => .nan

/-- `PyFloat` times a rational. -/
def PyFloat.mulQ : PyFloat → ℚ → PyFloat
  | .finite q, u => .finite (q * u)
  | .inf, u => if 0 < u then .inf else if u = 0 then .nan else .negInf
  | .negInf, u => if 0 < u then .negInf else if u = 0 then .nan else .inf
  | .nan, _ => .nan

/-- `PyFloat` divided by a nonzero rational. -/
def PyFloat.divQ : PyFloat → ℚ → PyFloat
  | .finite q, u => .finite (q / u)
  | .inf, u => if 0 < u then .inf else .negInf
  | .negInf, u => if 0 < u then .negInf else .inf
  | .nan, _ => .nan

/-- `PyFloat` floor-divided by a nonzero rational (Python `float // int`;
on the special values Python yields `nan`). -/
def PyFloat.fdivQ : PyFloat → ℚ → PyFloat
  | .finite q, u => .finite (((q / u).floor : ℤ) : ℚ)
  | _, _ => .nan

/-- `lambda i: i + random.randint(1, 10)` applied to an arbitrary value:
Python accepts `int`, `bool` and `float` left operands. -/
def addIntS (r : Int) (data : JVal) : Except PyErr JVal :=
  match data with
  | .int n => .ok (.int (n + r))
  | .bool b => .ok (.int (intOf b + r))
  | .num x => .ok (.num (x.addQ (r : ℚ)))
  | _ => .error .typeError

/-- `lambda i: i - random.randint(1, 10)` applied to an arbitrary value. -/
def subIntS (r : Int) (data : JVal) : Except PyErr JVal :=
  match data with
  | .int n => .ok (.int (n - r))
  | .bool b => .ok (.int (intOf b - r))
  | .num x => .ok (.num (x.subQ (r : ℚ)))
  | _ => .error .typeError

/-- `lambda i: i * random.randint(1, 3)`: Python also repeats strings and
lists when multiplied by an integer. -/
def mulIntS (r : Nat) (data : JVal) : Except PyErr JVal :=
  match data with
  | .int n => .ok (.int (n * r))
  | .bool b => .ok (.int (intOf b * r))
  | .num x => .ok (.num (x.mulQ (r : ℚ)))
  | .str s => .ok (.str (strRepeat s r))
  | .arr es => .ok (.arr (listRepeat es r))
  | _ => .error .typeError

/-- `i // d`: Python floor division, raising `ZeroDivisionError` on a zero
divisor. -/
def floorDivS (d : Nat) (data : JVal) : Except PyErr JVal :=
  if d = 0 then .error .zeroDivisionError
  else match data with
  | .int n => .ok (.int (Int.fdiv n d))
  | .bool b => .ok (.int (Int.fdiv (intOf b) d))
  | .num x => .ok (.num (x.fdivQ (d : ℚ)))
  | _ => .error .typeError

/-- One of the seven integer strategy lambdas of `_mutate_integer`. -/
def integer_strategy (i : Nat) (data : JVal) (g : Gen) : MutResult :=
  if i = 0 then
    let (r, g') := randint 1 10 g
    liftE g' (addIntS (r : Int) data)
  else if i = 1 then
    let (r, g') := randint 1 10 g
    liftE g' (subIntS (r : Int) data)
  else if i = 2 then
    let (r, g') := randint 1 3 g
    liftE g' (mulIntS r data)
  else if i = 3 then
    -- lambda i: i // random.randint(1, 3) if random.randint(1, 3) != 0 else i
    -- (the guard draw is evaluated first, then the divisor draw)
    let (c, g₁) := randint 1 3 g
    if c ≠ 0 then
      let (d, g₂) := randint 1 3 g₁
      liftE g₂ (floorDivS d data)
    else .ok (data, g₁)
  else if i = 4 then .ok (.int (2 ^ 31 - 1), g)
  else if i = 5 then .ok (.int (-(2 ^ 31)), g)
  else .ok (.int 0, g)

/-- `_mutate_integer`: choose one of seven strategies; `except
OverflowError` reverts to the original value. -/
def mutate_integer (data : JVal) (g : Gen) : MutResult :=
  let (i, g') := choiceIdx 7 g
  match integer_strategy i data g' with
  | .error (.overflowError, g₂) => .ok (data, g₂)
  | r => r

/-! ### `_mutate_number` (src/main.py lines 164-187) -/

/-- View a value as a Python float operand (`int`, `bool` and `float`
coerce; everything else is a `TypeError` for float arithmetic). -/
def toF : JVal → Option PyFloat
  | .int n => some (.finite (n : ℚ))
  | .bool b => some (.finite ((intOf b : Int) : ℚ))
  | .num x => some x
  | _ => none

/-- `lambda f: f + random.uniform(0.1, 1.0)` applied to an arbitrary value. -/
def addFS (u : ℚ) (data : JVal) : Except PyErr JVal :=
  match toF data with
  | some x => .ok (.num (x.addQ u))
  | none => .error .typeError

/-- `lambda f: f - random.uniform(0.1, 1.0)` applied to an arbitrary value. -/
def subFS (u : ℚ) (data : JVal) : Except PyErr JVal :=
  match toF data with
  | some x => .ok (.num (x.subQ u))
  | none => .error .typeError

/-- `lambda f: f * random.uniform(1.1, 2.0)` applied to an arbitrary value. -/
def mulFS (u : ℚ) (data : JVal) : Except PyErr JVal :=
  match toF data with
  | some x => .ok (.num (x.mulQ u))
  | none => .error .typeError

/-- `f / u`, raising `ZeroDivisionError` on a zero divisor. -/
def divFS (u : ℚ) (data : JVal) : Except PyErr JVal :=
  if u = 0 then .error .zeroDivisionError
  else match toF data with
  | some x => .ok (.num (x.divQ u))
  | none => .error .typeError

/-- One of the seven number strategy lambdas of `_mutate_number`. -/
def number_strategy (i : Nat) (data : JVal) (g : Gen) : MutResult :=
  if i = 0 then
    let (u, g') := uniform (1 / 10) 1 g
    liftE g' (addFS u data)
  else if i = 1 then
    let (u, g') := uniform (1 / 10) 1 g
    liftE g' (subFS u data)
  else if i = 2 then
    let (u, g') := uniform (11 / 10) 2 g
    liftE g' (mulFS u data)
  else if i = 3 then
    -- lambda f: f / random.uniform(1.1, 2.0) if random.uniform(1.1, 2.0) != 0 else f
    let (c, g₁) := uniform (11 / 10) 2 g
    if c ≠ 0 then
      let (u, g₂) := uniform (11 / 10) 2 g₁
      liftE g₂ (divFS u data)
    else .ok (data, g₁)
  else if i = 4 then .ok (.num .inf, g)
  else if i = 5 then .ok (.num .negInf, g)
  else .ok (.num .nan, g)

/-- `_mutate_number`: choose one of seven strategies; `except
ZeroDivisionError` reverts to the original value. -/
def mutate_number (data : JVal) (g : Gen) : MutResult :=
  let (i, g') := choiceIdx 7 g
  match number_strategy i data g' with
  | .error (.zeroDivisionError, g₂) => .ok (data, g₂)
  | r => r

/-! ### `_mutate_boolean` (src/main.py lines 189-196) -/

/-- `_mutate_boolean`: `not random.choice([True, False])` — a fresh random
boolean, ignoring the input value entirely (the function takes no data
argument in the source). -/
def mutate_boolean (g : Gen) : JVal × Gen :=
  let (i, g') := choiceIdx 2 g
  let picked := if i = 0 then true else false
  (.bool (!picked), g')

/-! ### `_mutate_recursive` (src/main.py lines 43-114) -/

/-- Python `key in schema["properties"]` for an arbitrary `properties`
value: dict membership, list membership (only string elements can compare
equal to a string key), substring test on strings, `TypeError` on
non-container values. -/
def propMember (p : JVal) (k : String) : Except PyErr Bool :=
  match p with
  | .obj fs => .ok (fs.lookup k).isSome
  | .arr es => .ok (es.any fun e => match e with | .str t => t = k | _ => false)
  | .str s => .ok (((List.range (s.length + 1)).any fun i => k.isPrefixOf (s.drop i)))
  | _ => .error .typeError

/-- Python `schema["properties"][key]` for a string key: only dicts can be
indexed by a string. -/
def propGet (p : JVal) (k : String) : Except PyErr JVal :=
  match p with
  | .obj fs =>
    match fs.lookup k with
    | some v => .ok v
    | none => .error .keyError
  | _ => .error .typeError

mutual

/-- Size of a JSON value, used as the recursion fuel of the traversal.
Every recursive call of `_mutate_recursive` descends into a strict subterm
of its data argument, so this size bounds the recursion. -/
def JVal.size : JVal → Nat
  | .null => 1
  | .bool _ => 1
  | .int _ => 1
  | .num _ => 1
  | .str _ => 1
  | .arr es => 1 + sizeList es
  | .obj fs => 1 + sizeFields fs
termination_by v => sizeOf v

def sizeList : List JVal → Nat
  | [] => 0
  | e :: rest => 1 + e.size + sizeList rest
termination_by l => sizeOf l

def sizeFields : List (String × JVal) → Nat
  | [] => 0
  | (_, v) :: rest => 1 + v.size + sizeFields rest
termination_by l => sizeOf l

end

/-- The element-wise loop of the `array` branch: mutate each element under
the `items` sub-schema, threading the random state left to right and
propagating the first raised exception. -/
def mapMutate (rec : JVal → JVal → Gen → MutResult) (items : JVal) :
    List JVal → Gen → Except (PyErr × Gen) (List JVal × Gen)
  | [], g => .ok ([], g)
  | e :: rest, g => do
    let (v, g') ← rec items e g
    let (vs, g'') ← mapMutate rec items rest g'
    .ok (v :: vs, g'')

/-- The key-wise loop of the `object` branch: keys found in
`schema["properties"]` are mutated under their sub-schema, other keys are
copied through unchanged. -/
def mapProps (rec : JVal → JVal → Gen → MutResult) (props : JVal) :
    List (String × JVal) → Gen → Except (PyErr × Gen) (List (String × JVal) × Gen)
  | [], g => .ok ([], g)
  | (k, v) :: rest, g =>
    match propMember props k with
    | .error e => .error (e, g)
    | .ok true =>
      match propGet props k with
      | .error e => .error (e, g)
      | .ok sub => do
        let (v', g') ← rec sub v g
        let (fs, g'') ← mapProps rec props rest g'
        .ok ((k, v') :: fs, g'')
    | .ok false => do
      let (fs, g'') ← mapProps rec props rest g
      .ok ((k, v) :: fs, g'')

/-- The key-wise loop of the wildcard branches (schema without a `type`
key, or schema that is not a dict): every value is mutated under the empty
schema `{}`. -/
def mapWild (rec : JVal → JVal → Gen → MutResult) :
    List (String × JVal) → Gen → Except (PyErr × Gen) (List (String × JVal) × Gen)
  | [], g => .ok ([], g)
  | (k, v) :: rest, g => do
    let (v', g') ← rec (JVal.obj []) v g
    let (fs, g'') ← mapWild rec rest g'
    .ok ((k, v') :: fs, g'')

/-- Body of `_mutate_recursive`, with a fuel parameter bounding the
recursion depth.  Every recursive call of the source descends into a
strict subterm of `data`, so fuel `JVal.size data` always suffices (see
`go_irrel` below); running out of fuel is Python's `RecursionError`. -/
def go : Nat → JVal → JVal → Gen → MutResult
  | 0, _, _, g => .error (.recursionError, g)
  | fuel + 1, schema, data, g =>
    match schema with
    | .obj sfs =>
      match sfs.lookup "type" with
      | some tval =>
        match tval with
        | .str t =>
          if t = "string" then mutate_string data g
          else if t = "integer" then mutate_integer data g
          else if t = "number" then mutate_number data g
          else if t = "boolean" then
            let (v, g') := mutate_boolean g
            .ok (v, g')
          else if t = "null" then .ok (.null, g)
          else if t = "array" then
            match sfs.lookup "items" with
            | some items =>
              match data with
              | .arr es =>
                match mapMutate (go fuel) items es g with
                | .error eg => .error eg
                | .ok (vs, g') => .ok (.arr vs, g')
              | _ => .ok (.arr [], g)
            | none => .ok (.arr [], g)
          else if t = "object" then
            match data with
            | .obj dfs =>
              match sfs.lookup "properties" with
              | some props =>
                match mapProps (go fuel) props dfs g with
                | .error eg => .error eg
                | .ok (fs, g') => .ok (.obj fs, g')
              | none =>
                -- no return statement executes on this path in the source:
                -- Python falls off the end of the function and yields None
                .ok (.null, g)
            | _ => .ok (.obj [], g)
          else
            -- unsupported type tag: log a warning, return the data unchanged
            .ok (data, g)
        | _ => .ok (data, g)
      | none =>
        match data with
        | .obj dfs =>
          match mapWild (go fuel) dfs g with
          | .error eg => .error eg
          | .ok (fs, g') => .ok (.obj fs, g')
        | _ => .ok (data, g)
    | _ =>
      match data with
      | .obj dfs =>
        match mapWild (go fuel) dfs g with
        | .error eg => .error eg
        | .ok (fs, g') => .ok (.obj fs, g')
      | _ => .ok (data, g)

/-- `_mutate_recursive(schema, data)`: run the traversal with fuel
`JVal.size data`, which the recursion never exhausts. -/
def mutate_recursive (schema data : JVal) (g : Gen) : MutResult :=
  go data.size schema data g

/-! ### `mutate` (src/main.py lines 28-41) -/

/-- The iteration loop of `mutate`: run `_mutate_recursive` on the same
schema and sample `n` times, threading the random state, collecting the
results in order. -/
def mutateLoop (schema sample : JVal) :
    Nat → Gen → Except (PyErr × Gen) (List JVal × Gen)
  | 0, g => .ok ([], g)
  | n + 1, g => do
    let (v, g') ← mutate_recursive schema sample g
    let (vs, g'') ← mutateLoop schema sample n g'
    .ok (v :: vs, g'')

/-- `mutate(schema, sample, iterations)`: the public entry point. -/
def mutate (schema sample : JVal) (iterations : Nat) (g : Gen) :
    Except (PyErr × Gen) (List JVal × Gen) :=
  mutateLoop schema sample iterations g

/-! ### Leaf compatibility

`compat schema data` is a sufficient condition for the traversal to be
exception-free on every random draw: wherever the schema declares a scalar
type `string` / `integer` / `number`, the corresponding sample leaf must
be a value all strategy lambdas accept (a string, respectively a Python
numeric value).  All structural mismatches are allowed — they degrade to
the fallback containers without raising. -/

/-- Values accepted by every integer and float strategy lambda. -/
def isNumericJ : JVal → Bool
  | .int _ => true
  | .bool _ => true
  | .num _ => true
  | _ => false

/-- Fueled leaf-compatibility check, mirroring the traversal of `go`. -/
def compatGo : Nat → JVal → JVal → Bool
  | 0, _, _ => false
  | fuel + 1, schema, data =>
    match schema with
    | .obj sfs =>
      match sfs.lookup "type" with
      | some tval =>
        match tval with
        | .str t =>
          if t = "string" then (match data with | .str _ => true | _ => false)
          else if t = "integer" then isNumericJ data
          else if t = "number" then isNumericJ data
          else if t = "boolean" then true
          else if t = "null" then true
          else if t = "array" then
            match sfs.lookup "items" with
            | some items =>
              match data with
              | .arr es => es.all fun e => compatGo fuel items e
              | _ => true
            | none => true
          else if t = "object" then
            match data with
            | .obj dfs =>
              match sfs.lookup "properties" with
              | some (.obj props) =>
                dfs.all fun kv =>
                  match props.lookup kv.1 with
                  | some sub => compatGo fuel sub kv.2
                  | none => true
              | some _ => false
              | none => true
            | _ => true
          else true
        | _ => true
      | none =>
        match data with
        | .obj dfs => dfs.all fun kv => compatGo fuel (JVal.obj []) kv.2
        | _ => true
    | _ =>
      match data with
      | .obj dfs => dfs.all fun kv => compatGo fuel (JVal.obj []) kv.2
      | _ => true

/-- Leaf compatibility of a schema/sample pair. -/
def compat (schema data : JVal) : Bool :=
  compatGo data.size schema data

/-- A generator whose streams are constantly zero: used for concrete
evaluations. -/
def g0 : Gen := ⟨fun _ => 0, fun _ => 0, 0, 0⟩

/-! ### Fuel adequacy for the traversal -/

theorem size_pos (v : JVal) : 1 ≤ v.size := by
  cases v <;> simp [JVal.size]

theorem size_lt_of_mem_list {e : JVal} {es : List JVal} (h : e ∈ es) :
    e.size < sizeList es := by
  induction es with
  | nil => cases h
  | cons a rest ih =>
    rcases List.mem_cons.mp h with h | h
    · subst h; simp [sizeList]; omega
    · have := ih h; simp [sizeList]; omega

theorem size_lt_of_mem_fields {kv : String × JVal} {fs : List (String × JVal)}
    (h : kv ∈ fs) : kv.2.size < sizeFields fs := by
  induction fs with
  | nil => cases h
  | cons a rest ih =>
    rcases a with ⟨k, v⟩
    rcases List.mem_cons.mp h with h | h
    · subst h; simp [sizeFields]; omega
    · have := ih h; simp [sizeFields]; omega

theorem exceptBind_congr {α β : Type} {x : Except (PyErr × Gen) α}
    {f₁ f₂ : α → Except (PyErr × Gen) β} (h : ∀ a, f₁ a = f₂ a) :
    x >>= f₁ = x >>= f₂ := by
  cases x with
  | error e => rfl
  | ok a => exact h a

theorem mapMutate_congr (r₁ r₂ : JVal → JVal → Gen → MutResult) (items : JVal) :
    ∀ (es : List JVal) (g : Gen),
    (∀ e ∈ es, ∀ g', r₁ items e g' = r₂ items e g') →
    mapMutate r₁ items es g = mapMutate r₂ items es g := by
  intro es
  induction es with
  | nil => intro g h; rfl
  | cons a rest ih =>
    intro g h
    simp only [mapMutate]
    rw [h a (List.mem_cons_self a rest) g]
    refine exceptBind_congr fun p => ?_
    rcases p with ⟨v, g'⟩
    rw [ih g' fun e he g'' => h e (List.mem_cons_of_mem a he) g'']

theorem mapProps_congr (r₁ r₂ : JVal → JVal → Gen → MutResult) (props : JVal) :
    ∀ (fs : List (String × JVal)) (g : Gen),
    (∀ kv ∈ fs, ∀ sub g', r₁ sub kv.2 g' = r₂ sub kv.2 g') →
    mapProps r₁ props fs g = mapProps r₂ props fs g := by
  intro fs
  induction fs with
  | nil => intro g h; rfl
  | cons a rest ih =>
    rcases a with ⟨k, v⟩
    intro g h
    have h' := fun kv hkv => h kv (List.mem_cons_of_mem (k, v) hkv)
    simp only [mapProps]
    split
    · rfl
    · split
      · rfl
      · rename_i sub heq
        rw [show r₁ sub v g = r₂ sub v g from h ⟨k, v⟩ (List.mem_cons_self _ rest) sub g]
        refine exceptBind_congr fun p => ?_
        rcases p with ⟨v', g'⟩
        rw [ih g' h']
    · rw [ih g h']

theorem mapWild_congr (r₁ r₂ : JVal → JVal → Gen → MutResult) :
    ∀ (fs : List (String × JVal)) (g : Gen),
    (∀ kv ∈ fs, ∀ g', r₁ (JVal.obj []) kv.2 g' = r₂ (JVal.obj []) kv.2 g') →
    mapWild r₁ fs g = mapWild r₂ fs g := by
  intro fs
  induction fs with
  | nil => intro g h; rfl
  | cons a rest ih =>
    rcases a with ⟨k, v⟩
    intro g h
    simp only [mapWild]
    rw [show r₁ (JVal.obj []) v g = r₂ (JVal.obj []) v g from
      h ⟨k, v⟩ (List.mem_cons_self _ rest) g]
    refine exceptBind_congr fun p => ?_
    rcases p with ⟨v', g'⟩
    rw [ih g' fun kv hkv => h kv (List.mem_cons_of_mem (k, v) hkv)]

/-- The traversal result does not depend on the fuel, as long as the fuel
is at least the size of the data: the recursion of `_mutate_recursive` is
bounded by the data tree. -/
theorem go_irrel : ∀ (m : Nat) (d : JVal), d.size ≤ m → ∀ (f₁ f₂ : Nat),
    d.size ≤ f₁ → d.size ≤ f₂ → ∀ (s : JVal) (g : Gen), go f₁ s d g = go f₂ s d g := by
  intro m
  induction m with
  | zero => intro d hd; have := size_pos d; omega
  | succ m ih =>
    intro d hd f₁ f₂ h₁ h₂ s g
    obtain ⟨a, rfl⟩ : ∃ a, f₁ = a + 1 := ⟨f₁ - 1, by have := size_pos d; omega⟩
    obtain ⟨b, rfl⟩ : ∃ b, f₂ = b + 1 := ⟨f₂ - 1, by have := size_pos d; omega⟩
    have hwild : ∀ (dfs : List (String × JVal)), d = JVal.obj dfs →
        mapWild (go a) dfs g = mapWild (go b) dfs g := by
      intro dfs hdfs
      apply mapWild_congr
      intro kv hkv g'
      have hs : kv.2.size < sizeFields dfs := size_lt_of_mem_fields hkv
      have hd' : d.size = 1 + sizeFields dfs := by rw [hdfs]; simp [JVal.size]
      exact ih kv.2 (by omega) a b (by omega) (by omega) _ g'
    cases s with
    | obj sfs =>
      cases htype : sfs.lookup "type" with
      | none =>
        cases d with
        | obj dfs =>
          simp only [go, htype]
          rw [hwild dfs rfl]
        | null => simp [go, htype]
        | bool _ => simp [go, htype]
        | int _ => simp [go, htype]
        | num _ => simp [go, htype]
        | str _ => simp [go, htype]
        | arr _ => simp [go, htype]
      | some tval =>
        cases tval with
        | str t =>
          by_cases hts : t = "string"
          · subst hts; simp [go, htype]
          by_cases hti : t = "integer"
          · subst hti; simp [go, htype]
          by_cases htn : t = "number"
          · subst htn; simp [go, htype]
          by_cases htb : t = "boolean"
          · subst htb; simp [go, htype]
          by_cases htu : t = "null"
          · subst htu; simp [go, htype]
          by_cases hta : t = "array"
          · subst hta
            cases hitems : sfs.lookup "items" with
            | none => simp [go, htype, hitems]
            | some items =>
              cases d with
              | arr es =>
                have harr : mapMutate (go a) items es g = mapMutate (go b) items es g := by
                  apply mapMutate_congr
                  intro e he g'
                  have hs : e.size < sizeList es := size_lt_of_mem_list he
                  have hd' : (JVal.arr es).size = 1 + sizeList es := by simp [JVal.size]
                  exact ih e (by omega) a b (by omega) (by omega) items g'
                simp [go, htype, hitems, harr]
              | null => simp [go, htype, hitems]
              | bool _ => simp [go, htype, hitems]
              | int _ => simp [go, htype, hitems]
              | num _ => simp [go, htype, hitems]
              | str _ => simp [go, htype, hitems]
              | obj _ => simp [go, htype, hitems]
          by_cases hto : t = "object"
          · subst hto
            cases d with
            | obj dfs =>
              cases hprops : sfs.lookup "properties" with
              | none => simp [go, htype, hprops]
              | some props =>
                have hobj : mapProps (go a) props dfs g = mapProps (go b) props dfs g := by
                  apply mapProps_congr
                  intro kv hkv sub g'
                  have hs : kv.2.size < sizeFields dfs := size_lt_of_mem_fields hkv
                  have hd' : (JVal.obj dfs).size = 1 + sizeFields dfs := by simp [JVal.size]
                  exact ih kv.2 (by omega) a b (by omega) (by omega) sub g'
                simp [go, htype, hprops, hobj]
            | null => simp [go, htype]
            | bool _ => simp [go, htype]
            | int _ => simp [go, htype]
            | num _ => simp [go, htype]
            | str _ => simp [go, htype]
            | arr _ => simp [go, htype]
          · simp [go, htype, hts, hti, htn, htb, htu, hta, hto]
        | null => simp [go, htype]
        | bool _ => simp [go, htype]
        | int _ => simp [go, htype]
        | num _ => simp [go, htype]
        | arr _ => simp [go, htype]
        | obj _ => simp [go, htype]
    | null =>
      cases d with
      | obj dfs => simp only [go]; rw [hwild dfs rfl]
      | null => rfl
      | bool _ => rfl
      | int _ => rfl
      | num _ => rfl
      | str _ => rfl
      | arr _ => rfl
    | bool _ =>
      cases d with
      | obj dfs => simp only [go]; rw [hwild dfs rfl]
      | null => rfl
      | bool _ => rfl
      | int _ => rfl
      | num _ => rfl
      | str _ => rfl
      | arr _ => rfl
    | int _ =>
      cases d with
      | obj dfs => simp only [go]; rw [hwild dfs rfl]
      | null => rfl
      | bool _ => rfl
      | int _ => rfl
      | num _ => rfl
      | str _ => rfl
      | arr _ => rfl
    | num _ =>
      cases d with
      | obj dfs => simp only [go]; rw [hwild dfs rfl]
      | null => rfl
      | bool _ => rfl
      | int _ => rfl
      | num _ => rfl
      | str _ => rfl
      | arr _ => rfl
    | str _ =>
      cases d with
      | obj dfs => simp only [go]; rw [hwild dfs rfl]
      | null => rfl
      | bool _ => rfl
      | int _ => rfl
      | num _ => rfl
      | str _ => rfl
      | arr _ => rfl
    | arr _ =>
      cases d with
      | obj dfs => simp only [go]; rw [hwild dfs rfl]
      | null => rfl
      | bool _ => rfl
      | int _ => rfl
      | num _ => rfl
      | str _ => rfl
      | arr _ => rfl

/-- Running `_mutate_recursive` equals running the fueled body at any
sufficient fuel. -/
theorem mutate_recursive_eq_go (f : Nat) (s d : JVal) (g : Gen) (h : d.size ≤ f) :
    mutate_recursive s d g = go f s d g :=
  go_irrel d.size d le_rfl d.size f le_rfl h s g

/-! ### Dispatch lemmas: one per branch of `_mutate_recursive` -/

theorem mutate_recursive_string (sfs : List (String × JVal)) (d : JVal) (g : Gen)
    (ht : sfs.lookup "type" = some (JVal.str "string")) :
    mutate_recursive (JVal.obj sfs) d g = mutate_string d g := by
  obtain ⟨f, hf⟩ : ∃ f, d.size = f + 1 := ⟨d.size - 1, by have := size_pos d; omega⟩
  rw [mutate_recursive_eq_go (f + 1) _ _ _ (le_of_eq hf)]
  simp [go, ht]

theorem mutate_recursive_integer (sfs : List (String × JVal)) (d : JVal) (g : Gen)
    (ht : sfs.lookup "type" = some (JVal.str "integer")) :
    mutate_recursive (JVal.obj sfs) d g = mutate_integer d g := by
  obtain ⟨f, hf⟩ : ∃ f, d.size = f + 1 := ⟨d.size - 1, by have := size_pos d; omega⟩
  rw [mutate_recursive_eq_go (f + 1) _ _ _ (le_of_eq hf)]
  simp [go, ht]

theorem mutate_recursive_number (sfs : List (String × JVal)) (d : JVal) (g : Gen)
    (ht : sfs.lookup "type" = some (JVal.str "number")) :
    mutate_recursive (JVal.obj sfs) d g = mutate_number d g := by
  obtain ⟨f, hf⟩ : ∃ f, d.size = f + 1 := ⟨d.size - 1, by have := size_pos d; omega⟩
  rw [mutate_recursive_eq_go (f + 1) _ _ _ (le_of_eq hf)]
  simp [go, ht]

theorem mutate_recursive_boolean (sfs : List (String × JVal)) (d : JVal) (g : Gen)
    (ht : sfs.lookup "type" = some (JVal.str "boolean")) :
    mutate_recursive (JVal.obj sfs) d g = .ok (mutate_boolean g) := by
  obtain ⟨f, hf⟩ : ∃ f, d.size = f + 1 := ⟨d.size - 1, by have := size_pos d; omega⟩
  rw [mutate_recursive_eq_go (f + 1) _ _ _ (le_of_eq hf)]
  simp [go, ht]

theorem mutate_recursive_null (sfs : List (String × JVal)) (d : JVal) (g : Gen)
    (ht : sfs.lookup "type" = some (JVal.str "null")) :
    mutate_recursive (JVal.obj sfs) d g = .ok (JVal.null, g) := by
  obtain ⟨f, hf⟩ : ∃ f, d.size = f + 1 := ⟨d.size - 1, by have := size_pos d; omega⟩
  rw [mutate_recursive_eq_go (f + 1) _ _ _ (le_of_eq hf)]
  simp [go, ht]

/-- The `array` branch with an `items` schema on list data: the elementwise
loop, with each element mutated by `_mutate_recursive` itself. -/
theorem mutate_recursive_array_items (sfs : List (String × JVal)) (items : JVal)
    (es : List JVal) (g : Gen)
    (ht : sfs.lookup "type" = some (JVal.str "array"))
    (hi : sfs.lookup "items" = some items) :
    mutate_recursive (JVal.obj sfs) (JVal.arr es) g =
      match mapMutate mutate_recursive items es g with
      | .error eg => .error eg
      | .ok (vs, g') => .ok (.arr vs, g') := by
  rw [mutate_recursive_eq_go (sizeList es + 1) _ _ _
    (by simp only [JVal.size]; omega)]
  have hcong : mapMutate (go (sizeList es)) items es g = mapMutate mutate_recursive items es g :=
    mapMutate_congr _ _ items es g fun e he g' =>
      (mutate_recursive_eq_go (sizeList es) items e g'
        (le_of_lt (size_lt_of_mem_list he))).symm
  simp [go, ht, hi, hcong]

/-- The `array` branch with an `items` schema on non-list data: the empty
sequence fallback. -/
theorem mutate_recursive_array_mismatch (sfs : List (String × JVal)) (d : JVal) (g : Gen)
    (ht : sfs.lookup "type" = some (JVal.str "array"))
    (hi : sfs.lookup "items" ≠ none → ∀ es, d ≠ JVal.arr es) :
    mutate_recursive (JVal.obj sfs) d g = .ok (JVal.arr [], g) := by
  obtain ⟨f, hf⟩ : ∃ f, d.size = f + 1 := ⟨d.size - 1, by have := size_pos d; omega⟩
  rw [mutate_recursive_eq_go (f + 1) _ _ _ (le_of_eq hf)]
  cases hitems : sfs.lookup "items" with
  | none => simp [go, ht, hitems]
  | some items =>
    have hd := hi (by rw [hitems]; exact Option.some_ne_none items)
    cases d with
    | arr es => exact absurd rfl (hd es)
    | null => simp [go, ht, hitems]
    | bool _ => simp [go, ht, hitems]
    | int _ => simp [go, ht, hitems]
    | num _ => simp [go, ht, hitems]
    | str _ => simp [go, ht, hitems]
    | obj _ => simp [go, ht, hitems]

/-- The `object` branch with a `properties` schema on mapping data: the
key-wise loop, with each known key mutated by `_mutate_recursive` itself. -/
theorem mutate_recursive_object_props (sfs : List (String × JVal)) (props : JVal)
    (dfs : List (String × JVal)) (g : Gen)
    (ht : sfs.lookup "type" = some (JVal.str "object"))
    (hp : sfs.lookup "properties" = some props) :
    mutate_recursive (JVal.obj sfs) (JVal.obj dfs) g =
      match mapProps mutate_recursive props dfs g with
      | .error eg => .error eg
      | .ok (fs, g') => .ok (.obj fs, g') := by
  rw [mutate_recursive_eq_go (sizeFields dfs + 1) _ _ _
    (by simp only [JVal.size]; omega)]
  have hcong : mapProps (go (sizeFields dfs)) props dfs g
      = mapProps mutate_recursive props dfs g :=
    mapProps_congr _ _ props dfs g fun kv hkv sub g' =>
      (mutate_recursive_eq_go (sizeFields dfs) sub kv.2 g'
        (le_of_lt (size_lt_of_mem_fields hkv))).symm
  simp [go, ht, hp, hcong]

/-- The `object` branch without a `properties` key on mapping data: no
return statement executes in the source, so Python yields `None`. -/
theorem mutate_recursive_object_noprops (sfs dfs g)
    (ht : List.lookup "type" sfs = some (JVal.str "object"))
    (hp : List.lookup "properties" sfs = none) :
    mutate_recursive (JVal.obj sfs) (JVal.obj dfs) g = .ok (JVal.null, g) := by
  rw [mutate_recursive_eq_go (sizeFields dfs + 1) _ _ _
    (by simp only [JVal.size]; omega)]
  simp [go, ht, hp]

/-- The `object` branch on non-mapping data: the empty mapping fallback. -/
theorem mutate_recursive_object_mismatch (sfs : List (String × JVal)) (d : JVal) (g : Gen)
    (ht : sfs.lookup "type" = some (JVal.str "object"))
    (hd : ∀ dfs, d ≠ JVal.obj dfs) :
    mutate_recursive (JVal.obj sfs) d g = .ok (JVal.obj [], g) := by
  obtain ⟨f, hf⟩ : ∃ f, d.size = f + 1 := ⟨d.size - 1, by have := size_pos d; omega⟩
  rw [mutate_recursive_eq_go (f + 1) _ _ _ (le_of_eq hf)]
  cases d with
  | obj dfs => exact absurd rfl (hd dfs)
  | null => simp [go, ht]
  | bool _ => simp [go, ht]
  | int _ => simp [go, ht]
  | num _ => simp [go, ht]
  | str _ => simp [go, ht]
  | arr _ => simp [go, ht]

/-- The unsupported-type branch: any `type` value other than the seven
supported tags logs a warning and passes the data through unchanged. -/
theorem mutate_recursive_unsupported (sfs : List (String × JVal)) (tval d : JVal) (g : Gen)
    (ht : sfs.lookup "type" = some tval)
    (h1 : tval ≠ JVal.str "string") (h2 : tval ≠ JVal.str "integer")
    (h3 : tval ≠ JVal.str "number") (h4 : tval ≠ JVal.str "boolean")
    (h5 : tval ≠ JVal.str "null") (h6 : tval ≠ JVal.str "array")
    (h7 : tval ≠ JVal.str "object") :
    mutate_recursive (JVal.obj sfs) d g = .ok (d, g) := by
  obtain ⟨f, hf⟩ : ∃ f, d.size = f + 1 := ⟨d.size - 1, by have := size_pos d; omega⟩
  rw [mutate_recursive_eq_go (f + 1) _ _ _ (le_of_eq hf)]
  cases tval with
  | str t =>
    have k1 : t ≠ "string" := fun h => h1 (by rw [h])
    have k2 : t ≠ "integer" := fun h => h2 (by rw [h])
    have k3 : t ≠ "number" := fun h => h3 (by rw [h])
    have k4 : t ≠ "boolean" := fun h => h4 (by rw [h])
    have k5 : t ≠ "null" := fun h => h5 (by rw [h])
    have k6 : t ≠ "array" := fun h => h6 (by rw [h])
    have k7 : t ≠ "object" := fun h => h7 (by rw [h])
    simp [go, ht, k1, k2, k3, k4, k5, k6, k7]
  | null => simp [go, ht]
  | bool _ => simp [go, ht]
  | int _ => simp [go, ht]
  | num _ => simp [go, ht]
  | arr _ => simp [go, ht]
  | obj _ => simp [go, ht]

/-! ### Range of the random draws -/

theorem ratFloor_le (q : ℚ) : (q.floor : ℚ) ≤ q := by
  rw [show q.floor = ⌊q⌋ from by rw [Rat.floor_def', ← Rat.floor_def]]
  exact Int.floor_le q

theorem lt_ratFloor_add_one (q : ℚ) : q < (q.floor : ℚ) + 1 := by
  rw [show q.floor = ⌊q⌋ from by rw [Rat.floor_def', ← Rat.floor_def]]
  exact Int.lt_floor_add_one q

/-- `random.randint(a, b)` always lands in `{a, ..., b}`. -/
theorem randint_mem (a b : Nat) (hab : a ≤ b) (g : Gen) :
    a ≤ (randint a b g).1 ∧ (randint a b g).1 ≤ b := by
  show a ≤ a + g.nats g.npos % (b + 1 - a) ∧ a + g.nats g.npos % (b + 1 - a) ≤ b
  have h : g.nats g.npos % (b + 1 - a) < b + 1 - a := Nat.mod_lt _ (by omega)
  omega

/-- `random.uniform(a, b)` always lands in `[a, b)` for `a < b`. -/
theorem uniform_mem (a b : ℚ) (hab : a < b) (g : Gen) :
    a ≤ (uniform a b g).1 ∧ (uniform a b g).1 < b := by
  show a ≤ a + (b - a) * (g.rats g.rpos - ((g.rats g.rpos).floor : ℚ)) ∧
    a + (b - a) * (g.rats g.rpos - ((g.rats g.rpos).floor : ℚ)) < b
  set q := g.rats g.rpos with hq
  have h1 : (0 : ℚ) ≤ q - (q.floor : ℚ) := by have := ratFloor_le q; linarith
  have h2 : q - (q.floor : ℚ) < 1 := by have := lt_ratFloor_add_one q; linarith
  constructor
  · nlinarith
  · nlinarith

/-! ### Totality of the leaf strategies on matching input types -/

/-- Every string strategy lambda maps a string to a string, for every
random draw. -/
theorem string_strategy_str_ok (i : Nat) (s : String) (g : Gen) :
    ∃ t g', string_strategy i (JVal.str s) g = .ok (JVal.str t, g') := by
  unfold string_strategy
  split_ifs <;> exact ⟨_, _, rfl⟩

/-- `_mutate_string` maps a string to a string, for every random draw. -/
theorem mutate_string_str_ok (s : String) (g : Gen) :
    ∃ t g', mutate_string (JVal.str s) g = .ok (JVal.str t, g') :=
  string_strategy_str_ok _ s _

/-- Every integer strategy lambda succeeds on `int`, `bool` and `float`
inputs, for every random draw. -/
theorem integer_strategy_ok (i : Nat) (d : JVal) (hd : isNumericJ d = true) (g : Gen) :
    ∃ p, integer_strategy i d g = .ok p := by
  unfold integer_strategy
  simp only [randint, Gen.nextNat]
  split_ifs with h0 h1 h2 h3 hg
  · cases d with
    | int n => exact ⟨_, rfl⟩
    | bool b => exact ⟨_, rfl⟩
    | num x => exact ⟨_, rfl⟩
    | null => simp [isNumericJ] at hd
    | str _ => simp [isNumericJ] at hd
    | arr _ => simp [isNumericJ] at hd
    | obj _ => simp [isNumericJ] at hd
  · cases d with
    | int n => exact ⟨_, rfl⟩
    | bool b => exact ⟨_, rfl⟩
    | num x => exact ⟨_, rfl⟩
    | null => simp [isNumericJ] at hd
    | str _ => simp [isNumericJ] at hd
    | arr _ => simp [isNumericJ] at hd
    | obj _ => simp [isNumericJ] at hd
  · cases d with
    | int n => exact ⟨_, rfl⟩
    | bool b => exact ⟨_, rfl⟩
    | num x => exact ⟨_, rfl⟩
    | null => simp [isNumericJ] at hd
    | str _ => simp [isNumericJ] at hd
    | arr _ => simp [isNumericJ] at hd
    | obj _ => simp [isNumericJ] at hd
  · -- the floor-division strategy with the guard passed: the sampled
    -- divisor is at least 1, so no ZeroDivisionError can occur
    unfold floorDivS
    rw [if_neg (by omega : ¬1 + g.nats (g.npos + 1) % (3 + 1 - 1) = 0)]
    cases d with
    | int n => exact ⟨_, rfl⟩
    | bool b => exact ⟨_, rfl⟩
    | num x => exact ⟨_, rfl⟩
    | null => simp [isNumericJ] at hd
    | str _ => simp [isNumericJ] at hd
    | arr _ => simp [isNumericJ] at hd
    | obj _ => simp [isNumericJ] at hd
  · -- the guard-failed branch returns the data unchanged (it is in fact
    -- unreachable, since the guard draw is at least 1)
    exact ⟨_, rfl⟩
  · exact ⟨_, rfl⟩
  · exact ⟨_, rfl⟩
  · exact ⟨_, rfl⟩

/-- `_mutate_integer` succeeds on `int`, `bool` and `float` inputs for
every random draw (in particular the `except OverflowError` handler is
never taken). -/
theorem mutate_integer_ok (d : JVal) (hd : isNumericJ d = true) (g : Gen) :
    ∃ p, mutate_integer d g = .ok p := by
  unfold mutate_integer
  simp only [choiceIdx, Gen.nextNat]
  obtain ⟨p, hp⟩ := integer_strategy_ok (g.nats g.npos % 7) d hd { g with npos := g.npos + 1 }
  exact ⟨p, by rw [hp]⟩

/-- Every number strategy lambda succeeds on `int`, `bool` and `float`
inputs, for every random draw; the sampled divisor lies in `[1.1, 2.0)`,
so it is nonzero and no `ZeroDivisionError` can occur. -/
theorem number_strategy_ok (i : Nat) (d : JVal) (hd : isNumericJ d = true) (g : Gen) :
    ∃ p, number_strategy i d g = .ok p := by
  have htof : ∃ x, toF d = some x := by
    cases d with
    | int n => exact ⟨_, rfl⟩
    | bool b => exact ⟨_, rfl⟩
    | num x => exact ⟨_, rfl⟩
    | null => simp [isNumericJ] at hd
    | str _ => simp [isNumericJ] at hd
    | arr _ => simp [isNumericJ] at hd
    | obj _ => simp [isNumericJ] at hd
  obtain ⟨x, hx⟩ := htof
  unfold number_strategy
  split_ifs with h0 h1 h2 h3
  · simp only [addFS, hx, liftE]; exact ⟨_, rfl⟩
  · simp only [subFS, hx, liftE]; exact ⟨_, rfl⟩
  · simp only [mulFS, hx, liftE]; exact ⟨_, rfl⟩
  · -- the division strategy: both the guard draw and the divisor draw lie
    -- in [1.1, 2.0), hence are nonzero
    have hc1 := (uniform_mem (11 / 10) 2 (by norm_num) g).1
    rcases hcu : uniform (11 / 10) 2 g with ⟨c, g₁⟩
    rw [hcu] at hc1
    dsimp only at hc1 ⊢
    rw [if_pos (show c ≠ 0 from fun h => by rw [h] at hc1; norm_num at hc1)]
    have hu1 := (uniform_mem (11 / 10) 2 (by norm_num) g₁).1
    rcases huu : uniform (11 / 10) 2 g₁ with ⟨u, g₂⟩
    rw [huu] at hu1
    dsimp only at hu1 ⊢
    unfold divFS
    rw [if_neg (show ¬u = 0 from fun h => by rw [h] at hu1; norm_num at hu1)]
    simp only [hx, liftE]
    exact ⟨_, rfl⟩
  · exact ⟨_, rfl⟩
  · exact ⟨_, rfl⟩
  · exact ⟨_, rfl⟩

/-- `_mutate_number` succeeds on `int`, `bool` and `float` inputs for
every random draw (in particular the `except ZeroDivisionError` handler is
never taken). -/
theorem mutate_number_ok (d : JVal) (hd : isNumericJ d = true) (g : Gen) :
    ∃ p, mutate_number d g = .ok p := by
  unfold mutate_number
  simp only [choiceIdx, Gen.nextNat]
  obtain ⟨p, hp⟩ := number_strategy_ok (g.nats g.npos % 7) d hd { g with npos := g.npos + 1 }
  exact ⟨p, by rw [hp]⟩

/-! ### Totality of the traversal on leaf-compatible pairs -/

@[simp] theorem error_bind {ε α β : Type} (e : ε) (f : α → Except ε β) :
    (Except.error e >>= f) = Except.error e := rfl

@[simp] theorem ok_bind {ε α β : Type} (a : α) (f : α → Except ε β) :
    (Except.ok a >>= f) = f a := rfl

theorem mapMutate_ok (rec : JVal → JVal → Gen → MutResult) (items : JVal) :
    ∀ (es : List JVal) (g : Gen),
    (∀ e ∈ es, ∀ g', ∃ p, rec items e g' = .ok p) →
    ∃ q, mapMutate rec items es g = .ok q := by
  intro es
  induction es with
  | nil => intro g h; exact ⟨_, rfl⟩
  | cons a rest ih =>
    intro g h
    obtain ⟨⟨v, g'⟩, hr⟩ := h a (List.mem_cons_self a rest) g
    obtain ⟨⟨vs, g''⟩, hm⟩ := ih g' fun e he g₀ => h e (List.mem_cons_of_mem a he) g₀
    refine ⟨⟨v :: vs, g''⟩, ?_⟩
    simp only [mapMutate]
    rw [hr, ok_bind]
    show mapMutate rec items rest g' >>= _ = _
    rw [hm, ok_bind]

theorem mapProps_ok (rec : JVal → JVal → Gen → MutResult) (props : List (String × JVal)) :
    ∀ (dfs : List (String × JVal)) (g : Gen),
    (∀ kv ∈ dfs, ∀ sub, props.lookup kv.1 = some sub → ∀ g', ∃ p, rec sub kv.2 g' = .ok p) →
    ∃ q, mapProps rec (JVal.obj props) dfs g = .ok q := by
  intro dfs
  induction dfs with
  | nil => intro g h; exact ⟨_, rfl⟩
  | cons a rest ih =>
    rcases a with ⟨k, v⟩
    intro g h
    have h' := fun kv hkv => h kv (List.mem_cons_of_mem (k, v) hkv)
    cases hlk : props.lookup k with
    | none =>
      obtain ⟨⟨fs, g''⟩, hm⟩ := ih g h'
      refine ⟨⟨(k, v) :: fs, g''⟩, ?_⟩
      simp only [mapProps, propMember, hlk, Option.isSome_none]
      rw [hm, ok_bind]
    | some sub =>
      obtain ⟨⟨v', g'⟩, hr⟩ := h (k, v) (List.mem_cons_self _ rest) sub hlk g
      obtain ⟨⟨fs, g''⟩, hm⟩ := ih g' h'
      refine ⟨⟨(k, v') :: fs, g''⟩, ?_⟩
      simp only [mapProps, propMember, propGet, hlk, Option.isSome_some]
      rw [hr, ok_bind]
      show mapProps rec (JVal.obj props) rest g' >>= _ = _
      rw [hm, ok_bind]

theorem mapWild_ok (rec : JVal → JVal → Gen → MutResult) :
    ∀ (fs : List (String × JVal)) (g : Gen),
    (∀ kv ∈ fs, ∀ g', ∃ p, rec (JVal.obj []) kv.2 g' = .ok p) →
    ∃ q, mapWild rec fs g = .ok q := by
  intro fs
  induction fs with
  | nil => intro g h; exact ⟨_, rfl⟩
  | cons a rest ih =>
    rcases a with ⟨k, v⟩
    intro g h
    obtain ⟨⟨v', g'⟩, hr⟩ := h (k, v) (List.mem_cons_self _ rest) g
    obtain ⟨⟨fs', g''⟩, hm⟩ := ih g' fun kv hkv g₀ => h kv (List.mem_cons_of_mem (k, v) hkv) g₀
    refine ⟨⟨(k, v') :: fs', g''⟩, ?_⟩
    simp only [mapWild]
    rw [hr, ok_bind]
    show mapWild rec rest g' >>= _ = _
    rw [hm, ok_bind]

/-! Extraction lemmas for the compatibility check, one per dispatch
branch. -/

theorem compat_string_shape (k : Nat) (sfs : List (String × JVal)) (d : JVal)
    (ht : sfs.lookup "type" = some (JVal.str "string"))
    (hc : compatGo (k + 1) (JVal.obj sfs) d = true) : ∃ sv, d = JVal.str sv := by
  cases d with
  | str sv => exact ⟨sv, rfl⟩
  | null => simp [compatGo, ht] at hc
  | bool _ => simp [compatGo, ht] at hc
  | int _ => simp [compatGo, ht] at hc
  | num _ => simp [compatGo, ht] at hc
  | arr _ => simp [compatGo, ht] at hc
  | obj _ => simp [compatGo, ht] at hc

theorem compat_integer_numeric (k : Nat) (sfs : List (String × JVal)) (d : JVal)
    (ht : sfs.lookup "type" = some (JVal.str "integer"))
    (hc : compatGo (k + 1) (JVal.obj sfs) d = true) : isNumericJ d = true := by
  cases d with
  | int _ => rfl
  | bool _ => rfl
  | num _ => rfl
  | null => simp [compatGo, ht, isNumericJ] at hc
  | str _ => simp [compatGo, ht, isNumericJ] at hc
  | arr _ => simp [compatGo, ht, isNumericJ] at hc
  | obj _ => simp [compatGo, ht, isNumericJ] at hc

theorem compat_number_numeric (k : Nat) (sfs : List (String × JVal)) (d : JVal)
    (ht : sfs.lookup "type" = some (JVal.str "number"))
    (hc : compatGo (k + 1) (JVal.obj sfs) d = true) : isNumericJ d = true := by
  cases d with
  | int _ => rfl
  | bool _ => rfl
  | num _ => rfl
  | null => simp [compatGo, ht, isNumericJ] at hc
  | str _ => simp [compatGo, ht, isNumericJ] at hc
  | arr _ => simp [compatGo, ht, isNumericJ] at hc
  | obj _ => simp [compatGo, ht, isNumericJ] at hc

theorem compat_array_elems (k : Nat) (sfs : List (String × JVal)) (items : JVal)
    (es : List JVal)
    (ht : sfs.lookup "type" = some (JVal.str "array"))
    (hi : sfs.lookup "items" = some items)
    (hc : compatGo (k + 1) (JVal.obj sfs) (JVal.arr es) = true) :
    ∀ e ∈ es, compatGo k items e = true := by
  simp [compatGo, ht, hi] at hc
  exact hc

theorem compat_object_props (k : Nat) (sfs : List (String × JVal)) (props : JVal)
    (dfs : List (String × JVal))
    (ht : sfs.lookup "type" = some (JVal.str "object"))
    (hp : sfs.lookup "properties" = some props)
    (hc : compatGo (k + 1) (JVal.obj sfs) (JVal.obj dfs) = true) :
    ∃ pfs, props = JVal.obj pfs ∧
      ∀ kv ∈ dfs, ∀ sub, pfs.lookup kv.1 = some sub → compatGo k sub kv.2 = true := by
  cases props with
  | obj pfs =>
    refine ⟨pfs, rfl, ?_⟩
    simp [compatGo, ht, hp] at hc
    intro kv hkv sub hsub
    have := hc kv.1 kv.2 (by simpa using hkv)
    rw [hsub] at this
    exact this
  | null => simp [compatGo, ht, hp] at hc
  | bool _ => simp [compatGo, ht, hp] at hc
  | int _ => simp [compatGo, ht, hp] at hc
  | num _ => simp [compatGo, ht, hp] at hc
  | str _ => simp [compatGo, ht, hp] at hc
  | arr _ => simp [compatGo, ht, hp] at hc

theorem compat_notype_fields (k : Nat) (sfs dfs : List (String × JVal))
    (ht : sfs.lookup "type" = none)
    (hc : compatGo (k + 1) (JVal.obj sfs) (JVal.obj dfs) = true) :
    ∀ kv ∈ dfs, compatGo k (JVal.obj []) kv.2 = true := by
  simp [compatGo, ht] at hc
  intro kv hkv
  exact hc kv.1 kv.2 (by simpa using hkv)

theorem compat_nonobj_fields (k : Nat) (s : JVal) (dfs : List (String × JVal))
    (hs : (match s with | JVal.obj _ => False | _ => True))
    (hc : compatGo (k + 1) s (JVal.obj dfs) = true) :
    ∀ kv ∈ dfs, compatGo k (JVal.obj []) kv.2 = true := by
  cases s with
  | obj _ => exact absurd hs (by simp)
  | null =>
    simp [compatGo] at hc
    intro kv hkv
    exact hc kv.1 kv.2 (by simpa using hkv)
  | bool _ =>
    simp [compatGo] at hc
    intro kv hkv
    exact hc kv.1 kv.2 (by simpa using hkv)
  | int _ =>
    simp [compatGo] at hc
    intro kv hkv
    exact hc kv.1 kv.2 (by simpa using hkv)
  | num _ =>
    simp [compatGo] at hc
    intro kv hkv
    exact hc kv.1 kv.2 (by simpa using hkv)
  | str _ =>
    simp [compatGo] at hc
    intro kv hkv
    exact hc kv.1 kv.2 (by simpa using hkv)
  | arr _ =>
    simp [compatGo] at hc
    intro kv hkv
    exact hc kv.1 kv.2 (by simpa using hkv)

/-- The traversal never raises when the pair is leaf-compatible, with the
fuel of the compatibility check and of the traversal aligned. -/
theorem go_total_aux : ∀ (m : Nat) (d : JVal), d.size ≤ m → ∀ (s : JVal) (g : Gen),
    compatGo m s d = true → ∃ p, go m s d g = .ok p := by
  intro m
  induction m with
  | zero => intro d hd; have := size_pos d; omega
  | succ k ih =>
    intro d hd s g hc
    have hwild : ∀ (dfs : List (String × JVal)), d = JVal.obj dfs →
        (∀ kv ∈ dfs, compatGo k (JVal.obj []) kv.2 = true) →
        ∃ q, mapWild (go k) dfs g = .ok q := by
      intro dfs hdfs hall
      have hsz : sizeFields dfs ≤ k := by
        have h1 : d.size = 1 + sizeFields dfs := by rw [hdfs]; simp [JVal.size]
        omega
      exact mapWild_ok (go k) dfs g fun kv hkv g₀ =>
        ih kv.2 (by have := size_lt_of_mem_fields hkv; omega) (JVal.obj []) g₀ (hall kv hkv)
    cases s with
    | obj sfs =>
      cases htype : sfs.lookup "type" with
      | some tval =>
        cases tval with
        | str t =>
          by_cases hts : t = "string"
          · subst hts
            obtain ⟨sv, rfl⟩ := compat_string_shape k sfs d htype hc
            obtain ⟨tv, g', hok⟩ := mutate_string_str_ok sv g
            exact ⟨_, by simp [go, htype, hok]; rfl⟩
          by_cases hti : t = "integer"
          · subst hti
            obtain ⟨p, hok⟩ := mutate_integer_ok d (compat_integer_numeric k sfs d htype hc) g
            exact ⟨p, by simp [go, htype, hok]⟩
          by_cases htn : t = "number"
          · subst htn
            obtain ⟨p, hok⟩ := mutate_number_ok d (compat_number_numeric k sfs d htype hc) g
            exact ⟨p, by simp [go, htype, hok]⟩
          by_cases htb : t = "boolean"
          · subst htb; exact ⟨_, by simp [go, htype]; rfl⟩
          by_cases htu : t = "null"
          · subst htu; exact ⟨_, by simp [go, htype]; rfl⟩
          by_cases hta : t = "array"
          · subst hta
            cases hitems : sfs.lookup "items" with
            | none => exact ⟨_, by simp [go, htype, hitems]; rfl⟩
            | some items =>
              cases d with
              | arr es =>
                have hall := compat_array_elems k sfs items es htype hitems hc
                have hsz : sizeList es ≤ k := by
                  have h1 : (JVal.arr es).size = 1 + sizeList es := by simp [JVal.size]
                  omega
                obtain ⟨⟨vs, g'⟩, hm⟩ := mapMutate_ok (go k) items es g fun e he g₀ =>
                  ih e (by have := size_lt_of_mem_list he; omega) items g₀ (hall e he)
                exact ⟨_, by simp [go, htype, hitems, hm]; rfl⟩
              | null => exact ⟨_, by simp [go, htype, hitems]; rfl⟩
              | bool _ => exact ⟨_, by simp [go, htype, hitems]; rfl⟩
              | int _ => exact ⟨_, by simp [go, htype, hitems]; rfl⟩
              | num _ => exact ⟨_, by simp [go, htype, hitems]; rfl⟩
              | str _ => exact ⟨_, by simp [go, htype, hitems]; rfl⟩
              | obj _ => exact ⟨_, by simp [go, htype, hitems]; rfl⟩
          by_cases hto : t = "object"
          · subst hto
            cases d with
            | obj dfs =>
              cases hprops : sfs.lookup "properties" with
              | none => exact ⟨_, by simp [go, htype, hprops]; rfl⟩
              | some props =>
                obtain ⟨pfs, rfl, hall⟩ := compat_object_props k sfs props dfs htype hprops hc
                have hsz : sizeFields dfs ≤ k := by
                  have h1 : (JVal.obj dfs).size = 1 + sizeFields dfs := by simp [JVal.size]
                  omega
                obtain ⟨⟨fs, g'⟩, hm⟩ := mapProps_ok (go k) pfs dfs g fun kv hkv sub hsub g₀ =>
                  ih kv.2 (by have := size_lt_of_mem_fields hkv; omega) sub g₀ (hall kv hkv sub hsub)
                exact ⟨_, by simp [go, htype, hprops, hm]; rfl⟩
            | null => exact ⟨_, by simp [go, htype]; rfl⟩
            | bool _ => exact ⟨_, by simp [go, htype]; rfl⟩
            | int _ => exact ⟨_, by simp [go, htype]; rfl⟩
            | num _ => exact ⟨_, by simp [go, htype]; rfl⟩
            | str _ => exact ⟨_, by simp [go, htype]; rfl⟩
            | arr _ => exact ⟨_, by simp [go, htype]; rfl⟩
          · exact ⟨_, by simp [go, htype, hts, hti, htn, htb, htu, hta, hto]; rfl⟩
        | null => exact ⟨_, by simp [go, htype]; rfl⟩
        | bool _ => exact ⟨_, by simp [go, htype]; rfl⟩
        | int _ => exact ⟨_, by simp [go, htype]; rfl⟩
        | num _ => exact ⟨_, by simp [go, htype]; rfl⟩
        | arr _ => exact ⟨_, by simp [go, htype]; rfl⟩
        | obj _ => exact ⟨_, by simp [go, htype]; rfl⟩
      | none =>
        cases d with
        | obj dfs =>
          obtain ⟨⟨fs, g'⟩, hm⟩ := hwild dfs rfl (compat_notype_fields k sfs dfs htype hc)
          exact ⟨_, by simp [go, htype, hm]; rfl⟩
        | null => exact ⟨_, by simp [go, htype]; rfl⟩
        | bool _ => exact ⟨_, by simp [go, htype]; rfl⟩
        | int _ => exact ⟨_, by simp [go, htype]; rfl⟩
        | num _ => exact ⟨_, by simp [go, htype]; rfl⟩
        | str _ => exact ⟨_, by simp [go, htype]; rfl⟩
        | arr _ => exact ⟨_, by simp [go, htype]; rfl⟩
    | null =>
      cases d with
      | obj dfs =>
        obtain ⟨⟨fs, g'⟩, hm⟩ := hwild dfs rfl (compat_nonobj_fields k _ dfs trivial hc)
        exact ⟨_, by simp [go, hm]; rfl⟩
      | null => exact ⟨_, rfl⟩
      | bool _ => exact ⟨_, rfl⟩
      | int _ => exact ⟨_, rfl⟩
      | num _ => exact ⟨_, rfl⟩
      | str _ => exact ⟨_, rfl⟩
      | arr _ => exact ⟨_, rfl⟩
    | bool _ =>
      cases d with
      | obj dfs =>
        obtain ⟨⟨fs, g'⟩, hm⟩ := hwild dfs rfl (compat_nonobj_fields k _ dfs trivial hc)
        exact ⟨_, by simp [go, hm]; rfl⟩
      | null => exact ⟨_, rfl⟩
      | bool _ => exact ⟨_, rfl⟩
      | int _ => exact ⟨_, rfl⟩
      | num _ => exact ⟨_, rfl⟩
      | str _ => exact ⟨_, rfl⟩
      | arr _ => exact ⟨_, rfl⟩
    | int _ =>
      cases d with
      | obj dfs =>
        obtain ⟨⟨fs, g'⟩, hm⟩ := hwild dfs rfl (compat_nonobj_fields k _ dfs trivial hc)
        exact ⟨_, by simp [go, hm]; rfl⟩
      | null => exact ⟨_, rfl⟩
      | bool _ => exact ⟨_, rfl⟩
      | int _ => exact ⟨_, rfl⟩
      | num _ => exact ⟨_, rfl⟩
      | str _ => exact ⟨_, rfl⟩
      | arr _ => exact ⟨_, rfl⟩
    | num _ =>
      cases d with
      | obj dfs =>
        obtain ⟨⟨fs, g'⟩, hm⟩ := hwild dfs rfl (compat_nonobj_fields k _ dfs trivial hc)
        exact ⟨_, by simp [go, hm]; rfl⟩
      | null => exact ⟨_, rfl⟩
      | bool _ => exact ⟨_, rfl⟩
      | int _ => exact ⟨_, rfl⟩
      | num _ => exact ⟨_, rfl⟩
      | str _ => exact ⟨_, rfl⟩
      | arr _ => exact ⟨_, rfl⟩
    | str _ =>
      cases d with
      | obj dfs =>
        obtain ⟨⟨fs, g'⟩, hm⟩ := hwild dfs rfl (compat_nonobj_fields k _ dfs trivial hc)
        exact ⟨_, by simp [go, hm]; rfl⟩
      | null => exact ⟨_, rfl⟩
      | bool _ => exact ⟨_, rfl⟩
      | int _ => exact ⟨_, rfl⟩
      | num _ => exact ⟨_, rfl⟩
      | str _ => exact ⟨_, rfl⟩
      | arr _ => exact ⟨_, rfl⟩
    | arr _ =>
      cases d with
      | obj dfs =>
        obtain ⟨⟨fs, g'⟩, hm⟩ := hwild dfs rfl (compat_nonobj_fields k _ dfs trivial hc)
        exact ⟨_, by simp [go, hm]; rfl⟩
      | null => exact ⟨_, rfl⟩
      | bool _ => exact ⟨_, rfl⟩
      | int _ => exact ⟨_, rfl⟩
      | num _ => exact ⟨_, rfl⟩
      | str _ => exact ⟨_, rfl⟩
      | arr _ => exact ⟨_, rfl⟩

/-- `_mutate_recursive` never raises on a leaf-compatible pair. -/
theorem mutate_recursive_total (s d : JVal) (g : Gen) (h : compat s d = true) :
    ∃ p, mutate_recursive s d g = .ok p :=
  go_total_aux d.size d le_rfl s g h

/-! ### Shape of successful loop results -/

/-- A successful run of the array loop has one output element per input
element, and output element `i` is the mutation of input element `i` under
the `items` schema at the threaded random state. -/
theorem mapMutate_spec (rec : JVal → JVal → Gen → MutResult) (items : JVal) :
    ∀ (es : List JVal) (g : Gen) (ys : List JVal) (gf : Gen),
    mapMutate rec items es g = .ok (ys, gf) →
    ys.length = es.length ∧
    ∀ i (h1 : i < es.length) (h2 : i < ys.length),
      ∃ g₁ g₂, rec items (es.get ⟨i, h1⟩) g₁ = .ok (ys.get ⟨i, h2⟩, g₂) := by
  intro es
  induction es with
  | nil =>
    intro g ys gf h
    simp only [mapMutate, Except.ok.injEq, Prod.mk.injEq] at h
    obtain ⟨h1, h2⟩ := h
    subst h1
    exact ⟨rfl, fun i h1 => absurd h1 (by simp)⟩
  | cons a rest ih =>
    intro g ys gf h
    simp only [mapMutate] at h
    cases hr : rec items a g with
    | error eg => rw [hr, error_bind] at h; exact Except.noConfusion h
    | ok p =>
      rcases p with ⟨v, g₁⟩
      rw [hr, ok_bind] at h
      simp only [] at h
      cases hm : mapMutate rec items rest g₁ with
      | error eg => rw [hm, error_bind] at h; exact Except.noConfusion h
      | ok q =>
        rcases q with ⟨vs, g₂⟩
        rw [hm, ok_bind] at h
        simp only [Except.ok.injEq, Prod.mk.injEq] at h
        obtain ⟨h1, h2⟩ := h
        subst h1
        obtain ⟨hl, hel⟩ := ih g₁ vs g₂ hm
        refine ⟨by simp [hl], ?_⟩
        intro i h1 h2
        cases i with
        | zero => exact ⟨g, g₁, by simpa using hr⟩
        | succ n =>
          have hn1 : n < rest.length := by simpa using h1
          have hn2 : n < vs.length := by simpa using h2
          obtain ⟨g₁', g₂', hg⟩ := hel n hn1 hn2
          exact ⟨g₁', g₂', by simpa using hg⟩

/-- A successful run of the object loop preserves the key sequence of the
sample, and binds every key absent from the `properties` mapping to its
original value. -/
theorem mapProps_spec (rec : JVal → JVal → Gen → MutResult)
    (props : List (String × JVal)) :
    ∀ (dfs : List (String × JVal)) (g : Gen) (out : List (String × JVal)) (gf : Gen),
    mapProps rec (JVal.obj props) dfs g = .ok (out, gf) →
    out.map Prod.fst = dfs.map Prod.fst ∧
    ∀ k w, (k, w) ∈ dfs → props.lookup k = none → (k, w) ∈ out := by
  intro dfs
  induction dfs with
  | nil =>
    intro g out gf h
    simp only [mapProps, Except.ok.injEq, Prod.mk.injEq] at h
    obtain ⟨h1, h2⟩ := h
    subst h1
    exact ⟨rfl, fun k w hk => absurd hk (by simp)⟩
  | cons a rest ih =>
    rcases a with ⟨k0, v0⟩
    intro g out gf h
    simp only [mapProps, propMember] at h
    cases hlk : props.lookup k0 with
    | none =>
      rw [hlk] at h
      simp only [Option.isSome_none] at h
      cases hm : mapProps rec (JVal.obj props) rest g with
      | error eg => rw [hm, error_bind] at h; exact Except.noConfusion h
      | ok q =>
        rcases q with ⟨fs, g₂⟩
        rw [hm, ok_bind] at h
        simp only [Except.ok.injEq, Prod.mk.injEq] at h
        obtain ⟨h1, h2⟩ := h
        subst h1
        obtain ⟨hkeys, hmem⟩ := ih g fs g₂ hm
        refine ⟨by simp [hkeys], ?_⟩
        intro k w hk hnone
        rcases List.mem_cons.mp hk with hk | hk
        · rcases hk with ⟨rfl, rfl⟩
          exact List.mem_cons_self _ _
        · exact List.mem_cons_of_mem _ (hmem k w hk hnone)
    | some sub =>
      rw [hlk] at h
      simp only [Option.isSome_some, propGet, hlk] at h
      cases hr : rec sub v0 g with
      | error eg => rw [hr, error_bind] at h; exact Except.noConfusion h
      | ok p =>
        rcases p with ⟨v', g₁⟩
        rw [hr, ok_bind] at h
        simp only [] at h
        cases hm : mapProps rec (JVal.obj props) rest g₁ with
        | error eg => rw [hm, error_bind] at h; exact Except.noConfusion h
        | ok q =>
          rcases q with ⟨fs, g₂⟩
          rw [hm, ok_bind] at h
          simp only [Except.ok.injEq, Prod.mk.injEq] at h
          obtain ⟨h1, h2⟩ := h
          subst h1
          obtain ⟨hkeys, hmem⟩ := ih g₁ fs g₂ hm
          refine ⟨by simp [hkeys], ?_⟩
          intro k w hk hnone
          rcases List.mem_cons.mp hk with hk | hk
          · rcases hk with ⟨rfl, rfl⟩
            rw [hlk] at hnone
            exact Option.noConfusion hnone
          · exact List.mem_cons_of_mem _ (hmem k w hk hnone)

/-- A successful run of the iteration loop of `mutate` yields exactly one
payload per iteration. -/
theorem mutateLoop_length (s d : JVal) : ∀ (n : Nat) (g : Gen) (ys : List JVal) (gf : Gen),
    mutateLoop s d n g = .ok (ys, gf) → ys.length = n := by
  intro n
  induction n with
  | zero =>
    intro g ys gf h
    simp only [mutateLoop, Except.ok.injEq, Prod.mk.injEq] at h
    obtain ⟨h1, h2⟩ := h
    subst h1
    rfl
  | succ n ih =>
    intro g ys gf h
    simp only [mutateLoop] at h
    cases hr : mutate_recursive s d g with
    | error eg => rw [hr, error_bind] at h; exact Except.noConfusion h
    | ok p =>
      rcases p with ⟨v, g₁⟩
      rw [hr, ok_bind] at h
      simp only [] at h
      cases hm : mutateLoop s d n g₁ with
      | error eg => rw [hm, error_bind] at h; exact Except.noConfusion h
      | ok q =>
        rcases q with ⟨vs, g₂⟩
        rw [hm, ok_bind] at h
        simp only [Except.ok.injEq, Prod.mk.injEq] at h
        obtain ⟨h1, h2⟩ := h
        subst h1
        simp [ih g₁ vs g₂ hm]

/-! ### The claims -/

/-- C1 (amended): `_mutate_recursive` is total — returns a value without
raising — for every leaf-compatible (schema, sample) pair, i.e. whenever
every schema position declaring a scalar type `string` / `integer` /
`number` receives a sample leaf its strategy lambdas accept (a string, or
respectively a Python numeric value); in particular every structural shape
mismatch (object/array/boolean/null schema versus any sample shape,
wildcard schemas, unsupported tags) resolves without an exception.  The
original claim is false as stated: a `{"type":"string"}` schema paired
with an integer sample raises `TypeError` for the append strategies (see
the counterexample). -/
theorem c1_totality_amended (d s : JVal) (g : Gen) (h : compat s d = true) :
    ∃ v g', mutate_recursive s d g = .ok (v, g') := by
  obtain ⟨⟨v, g'⟩, hp⟩ := mutate_recursive_total s d g h
  exact ⟨v, g', hp⟩

/-- C1 counterexample: schema `{"type":"string"}` with the integer sample
`5` raises (TypeError from `5 + "!"`) under the first strategy draw, so
`_mutate_recursive` is not total over arbitrarily mismatched shapes. -/
theorem c1_counterexample :
    exErr (mutate_recursive (JVal.obj [("type", JVal.str "string")]) (JVal.int 5) g0) = true := by
  rw [mutate_recursive_eq_go 3 _ _ _ (by norm_num [JVal.size])]
  rfl

/-- C1 witness: a structurally mismatched but leaf-compatible pair —
schema `{"type":"object"}` with sample `5` — is accepted by `compat` and
mutates without raising. -/
theorem c1_witness :
    compat (JVal.obj [("type", JVal.str "object")]) (JVal.int 5) = true ∧
    ∃ v g', mutate_recursive (JVal.obj [("type", JVal.str "object")]) (JVal.int 5) g0
      = .ok (v, g') := by
  have hc : compat (JVal.obj [("type", JVal.str "object")]) (JVal.int 5) = true := by
    unfold compat
    rw [show (JVal.int 5).size = 1 from by norm_num [JVal.size]]
    rfl
  exact ⟨hc, c1_totality_amended (JVal.int 5) _ g0 hc⟩

/-- C2 (code bug): for a schema node with type `object` but no
`properties` key and a mapping sample, the source builds `mutated_object`
but the `return mutated_object` statement sits inside the
`if "properties" in schema:` block, so no return executes and Python
falls off the end of `_mutate_recursive`, yielding `None` instead of the
key-preserving mapping the claim (and §4.1 of the spec) describes. -/
theorem c2_object_noprops_bug :
    resultVal (mutate_recursive (JVal.obj [("type", JVal.str "object")])
      (JVal.obj [("a", JVal.int 1)]) g0) = some JVal.null := by
  rw [mutate_recursive_eq_go 4 _ _ _ (by norm_num [JVal.size, sizeFields])]
  rfl

/-- C3 (amended): `mutate(schema, sample, n)` returns exactly `n` elements
whenever it returns without raising, and `n = 0` always yields the empty
sequence.  The original unconditional claim is false: for mismatched
scalar leaves the underlying `_mutate_recursive` call can raise, and then
no sequence is returned (see the counterexample). -/
theorem c3_cardinality_amended :
    (∀ (schema sample : JVal) (n : Nat) (g : Gen) (ys : List JVal) (gf : Gen),
      mutate schema sample n g = .ok (ys, gf) → ys.length = n) ∧
    (∀ (schema sample : JVal) (g : Gen), mutate schema sample 0 g = .ok ([], g)) :=
  ⟨fun s d n g ys gf h => mutateLoop_length s d n g ys gf h, fun _ _ _ => rfl⟩

/-- C3 counterexample: `mutate` with schema `{"type":"string"}`, sample
`7` and one iteration raises instead of returning a one-element
sequence. -/
theorem c3_counterexample :
    exErr (mutate (JVal.obj [("type", JVal.str "string")]) (JVal.int 7) 1 g0) = true := by
  show exErr (mutateLoop _ _ 1 g0) = true
  simp only [mutateLoop]
  rw [mutate_recursive_eq_go 3 _ _ _ (by norm_num [JVal.size])]
  rfl

/-- C3 witness: with schema `{"type":"null"}` the call succeeds, and two
iterations return exactly two payloads; zero iterations return the empty
sequence. -/
theorem c3_witness :
    ([JVal.null, JVal.null] : List JVal).length = 2 ∧
    mutate (JVal.obj [("type", JVal.str "null")]) (JVal.int 7) 0 g0 = .ok ([], g0) := by
  have hnull : ∀ g' : Gen, mutate_recursive (JVal.obj [("type", JVal.str "null")])
      (JVal.int 7) g' = .ok (JVal.null, g') :=
    fun g' => mutate_recursive_null _ _ _ rfl
  refine ⟨?_, c3_cardinality_amended.2 _ _ g0⟩
  refine c3_cardinality_amended.1 (JVal.obj [("type", JVal.str "null")]) (JVal.int 7)
    2 g0 [JVal.null, JVal.null] g0 ?_
  show mutateLoop _ _ 2 g0 = _
  simp only [mutateLoop, hnull, ok_bind]

/-- C4 (amended): for a schema node with type `array` and an `items`
sub-schema, and a list sample, `_mutate_recursive` performs exactly the
element-wise loop; whenever that loop returns without raising, the result
is a list of the same length whose element `i` is
`_mutate_recursive(items, value[i])` at the threaded random state.  The
original claim is false as stated: an element mutation can raise (see the
counterexample), and then no list is returned. -/
theorem c4_array_elementwise_amended (sfs : List (String × JVal)) (items : JVal)
    (es : List JVal) (g : Gen)
    (ht : sfs.lookup "type" = some (JVal.str "array"))
    (hi : sfs.lookup "items" = some items) :
    (mutate_recursive (JVal.obj sfs) (JVal.arr es) g =
      match mapMutate mutate_recursive items es g with
      | .error eg => .error eg
      | .ok (vs, g') => .ok (.arr vs, g')) ∧
    ∀ ys gf, mapMutate mutate_recursive items es g = .ok (ys, gf) →
      ys.length = es.length ∧
      ∀ i (h1 : i < es.length) (h2 : i < ys.length),
        ∃ g₁ g₂, mutate_recursive items (es.get ⟨i, h1⟩) g₁ = .ok (ys.get ⟨i, h2⟩, g₂) :=
  ⟨mutate_recursive_array_items sfs items es g ht hi,
   fun ys gf h => mapMutate_spec mutate_recursive items es g ys gf h⟩

/-- C4 counterexample: schema
`{"type":"array","items":{"type":"string"}}` with sample `[5]` raises
from the element mutation instead of returning a one-element list. -/
theorem c4_counterexample :
    exErr (mutate_recursive
      (JVal.obj [("type", JVal.str "array"), ("items", JVal.obj [("type", JVal.str "string")])])
      (JVal.arr [JVal.int 5]) g0) = true := by
  rw [mutate_recursive_eq_go 5 _ _ _ (by norm_num [JVal.size, sizeList])]
  rfl

/-- C4 witness: the element-wise characterization instantiated at schema
`{"type":"array","items":{"type":"integer"}}` and sample `[1, 2, 3]`. -/
theorem c4_witness :
    (mutate_recursive
      (JVal.obj [("type", JVal.str "array"), ("items", JVal.obj [("type", JVal.str "integer")])])
      (JVal.arr [JVal.int 1, JVal.int 2, JVal.int 3]) g0 =
      match mapMutate mutate_recursive (JVal.obj [("type", JVal.str "integer")])
          [JVal.int 1, JVal.int 2, JVal.int 3] g0 with
      | .error eg => .error eg
      | .ok (vs, g') => .ok (.arr vs, g')) ∧
    ∀ ys gf, mapMutate mutate_recursive (JVal.obj [("type", JVal.str "integer")])
        [JVal.int 1, JVal.int 2, JVal.int 3] g0 = .ok (ys, gf) →
      ys.length = ([JVal.int 1, JVal.int 2, JVal.int 3] : List JVal).length ∧
      ∀ i (h1 : i < ([JVal.int 1, JVal.int 2, JVal.int 3] : List JVal).length)
        (h2 : i < ys.length),
        ∃ g₁ g₂, mutate_recursive (JVal.obj [("type", JVal.str "integer")])
          (([JVal.int 1, JVal.int 2, JVal.int 3] : List JVal).get ⟨i, h1⟩) g₁
          = .ok (ys.get ⟨i, h2⟩, g₂) :=
  c4_array_elementwise_amended _ _ _ g0 rfl rfl

/-- C5: for a schema node with type `object` and a `properties` mapping,
and a mapping sample, every mutated output preserves the sample's key
sequence, binds every key absent from `properties` to exactly its
original value, and contains no key that is not a key of the sample — in
particular keys declared in `properties` but absent from the sample are
never synthesized. -/
theorem c5_unknown_field_passthrough (sfs props dfs : List (String × JVal))
    (g gf : Gen) (v : JVal)
    (ht : sfs.lookup "type" = some (JVal.str "object"))
    (hp : sfs.lookup "properties" = some (JVal.obj props))
    (h : mutate_recursive (JVal.obj sfs) (JVal.obj dfs) g = .ok (v, gf)) :
    ∃ out, v = JVal.obj out ∧
      out.map Prod.fst = dfs.map Prod.fst ∧
      (∀ k w, (k, w) ∈ dfs → props.lookup k = none → (k, w) ∈ out) ∧
      (∀ k, k ∉ dfs.map Prod.fst → k ∉ out.map Prod.fst) := by
  rw [mutate_recursive_object_props sfs (JVal.obj props) dfs g ht hp] at h
  cases hm : mapProps mutate_recursive (JVal.obj props) dfs g with
  | error eg => rw [hm] at h; exact Except.noConfusion h
  | ok q =>
    rcases q with ⟨fs, g'⟩
    rw [hm] at h
    simp only [Except.ok.injEq, Prod.mk.injEq] at h
    obtain ⟨h1, h2⟩ := h
    obtain ⟨hkeys, hmem⟩ := mapProps_spec mutate_recursive props dfs g fs g' hm
    refine ⟨fs, h1.symm, hkeys, hmem, ?_⟩
    intro k hk
    rw [hkeys]
    exact hk

/-- C5 witness: schema
`{"type":"object","properties":{"a":{"type":"string"}}}` with sample
`{"a":"x","b":42}` — the concrete run mutates `a` and passes `b` through
as `42`. -/
theorem c5_witness :
    ∃ out, (JVal.obj [("a", JVal.str "x!"), ("b", JVal.int 42)]) = JVal.obj out ∧
      out.map Prod.fst =
        ([("a", JVal.str "x"), ("b", JVal.int 42)] : List (String × JVal)).map Prod.fst ∧
      (∀ k w, (k, w) ∈ ([("a", JVal.str "x"), ("b", JVal.int 42)] : List (String × JVal)) →
        ([("a", JVal.obj [("type", JVal.str "string")])] : List (String × JVal)).lookup k = none →
        (k, w) ∈ out) ∧
      (∀ k, k ∉ ([("a", JVal.str "x"), ("b", JVal.int 42)] : List (String × JVal)).map Prod.fst →
        k ∉ out.map Prod.fst) := by
  refine c5_unknown_field_passthrough
    [("type", JVal.str "object"),
     ("properties", JVal.obj [("a", JVal.obj [("type", JVal.str "string")])])]
    [("a", JVal.obj [("type", JVal.str "string")])]
    [("a", JVal.str "x"), ("b", JVal.int 42)]
    g0 ⟨fun _ => 0, fun _ => 0, 2, 0⟩ _ rfl rfl ?_
  rw [mutate_recursive_eq_go 8 _ _ _ (by norm_num [JVal.size, sizeFields])]
  rfl

/-- C6: a schema node with type `array` and no `items` key maps every
sample value whatsoever to the empty list. -/
theorem c6_array_without_items (sfs : List (String × JVal)) (d : JVal) (g : Gen)
    (ht : sfs.lookup "type" = some (JVal.str "array"))
    (hi : sfs.lookup "items" = none) :
    mutate_recursive (JVal.obj sfs) d g = .ok (JVal.arr [], g) := by
  obtain ⟨f, hf⟩ : ∃ f, d.size = f + 1 := ⟨d.size - 1, by have := size_pos d; omega⟩
  rw [mutate_recursive_eq_go (f + 1) _ _ _ (le_of_eq hf)]
  simp [go, ht, hi]

/-- C6 witness: schema `{"type":"array"}` with a non-list sample yields
the empty list. -/
theorem c6_witness :
    mutate_recursive (JVal.obj [("type", JVal.str "array")]) (JVal.int 7) g0
      = .ok (JVal.arr [], g0) :=
  c6_array_without_items _ _ _ rfl rfl

/-- C7: for a schema node whose `type` value is none of the seven
supported tags, `_mutate_recursive` returns the sample value unchanged
(a logged, recoverable pass-through, not a failure). -/
theorem c7_unsupported_type_passthrough (sfs : List (String × JVal)) (tval d : JVal)
    (g : Gen)
    (ht : sfs.lookup "type" = some tval)
    (h1 : tval ≠ JVal.str "string") (h2 : tval ≠ JVal.str "integer")
    (h3 : tval ≠ JVal.str "number") (h4 : tval ≠ JVal.str "boolean")
    (h5 : tval ≠ JVal.str "null") (h6 : tval ≠ JVal.str "array")
    (h7 : tval ≠ JVal.str "object") :
    mutate_recursive (JVal.obj sfs) d g = .ok (d, g) :=
  mutate_recursive_unsupported sfs tval d g ht h1 h2 h3 h4 h5 h6 h7

/-- C7 witness: schema `{"type":"date"}` passes the sample through
unchanged. -/
theorem c7_witness :
    mutate_recursive (JVal.obj [("type", JVal.str "date")]) (JVal.int 3) g0
      = .ok (JVal.int 3, g0) :=
  c7_unsupported_type_passthrough _ (JVal.str "date") _ g0 rfl
    (by simp) (by simp) (by simp) (by simp) (by simp) (by simp) (by simp)

/-- C8: the integer division strategy samples its divisor from
`{1, 2, 3}` and the float division strategy from `[1.1, 2.0)`, so both
divisors are nonzero for every random draw; consequently `_mutate_integer`
and `_mutate_number` never raise on numeric input (`int`, `bool`,
`float`) — the divide-by-zero guards and the `except` recovery handlers
are unreachable. -/
theorem c8_division_unreachable (d : JVal) (g : Gen) (hd : isNumericJ d = true) :
    (1 ≤ (randint 1 3 g).1 ∧ (randint 1 3 g).1 ≤ 3 ∧ (randint 1 3 g).1 ≠ 0) ∧
    (11 / 10 ≤ (uniform (11 / 10) 2 g).1 ∧ (uniform (11 / 10) 2 g).1 < 2 ∧
      (uniform (11 / 10) 2 g).1 ≠ 0) ∧
    (∃ p, mutate_integer d g = .ok p) ∧ (∃ p, mutate_number d g = .ok p) := by
  obtain ⟨hr1, hr2⟩ := randint_mem 1 3 (by norm_num) g
  obtain ⟨hu1, hu2⟩ := uniform_mem (11 / 10) 2 (by norm_num) g
  refine ⟨⟨hr1, hr2, by omega⟩, ⟨hu1, hu2, ?_⟩, mutate_integer_ok d hd g, mutate_number_ok d hd g⟩
  intro h
  rw [h] at hu1
  norm_num at hu1

/-- C8 witness: the division-safety facts instantiated at the numeric
sample `10` and a concrete generator. -/
theorem c8_witness :
    (1 ≤ (randint 1 3 g0).1 ∧ (randint 1 3 g0).1 ≤ 3 ∧ (randint 1 3 g0).1 ≠ 0) ∧
    (11 / 10 ≤ (uniform (11 / 10) 2 g0).1 ∧ (uniform (11 / 10) 2 g0).1 < 2 ∧
      (uniform (11 / 10) 2 g0).1 ≠ 0) ∧
    (∃ p, mutate_integer (JVal.int 10) g0 = .ok p) ∧
    (∃ p, mutate_number (JVal.int 10) g0 = .ok p) :=
  c8_division_unreachable (JVal.int 10) g0 rfl

/-- C9: for a schema node with type `boolean`, the result is a freshly
drawn boolean that does not depend on the sample value at all: with the
same random state, every sample value yields the same `true`/`false`
result. -/
theorem c9_boolean_noninterference (sfs : List (String × JVal)) (g : Gen)
    (ht : sfs.lookup "type" = some (JVal.str "boolean")) :
    ∃ b g', ∀ d, mutate_recursive (JVal.obj sfs) d g = .ok (JVal.bool b, g') := by
  refine ⟨!(if (choiceIdx 2 g).1 = 0 then true else false), (choiceIdx 2 g).2, fun d => ?_⟩
  rw [mutate_recursive_boolean sfs d g ht]
  rfl

/-- C9 witness: schema `{"type":"boolean"}` at a concrete generator —
one boolean outcome shared by all sample values. -/
theorem c9_witness :
    ∃ b g', ∀ d, mutate_recursive (JVal.obj [("type", JVal.str "boolean")]) d g0
      = .ok (JVal.bool b, g') :=
  c9_boolean_noninterference _ g0 rfl

/-- C10: every one of the eight string strategy lambdas, and hence
`_mutate_string` itself, maps a string input to a string result, for
every possible random draw. -/
theorem c10_string_closure (s : String) (g : Gen) :
    (∀ i, ∃ t g', string_strategy i (JVal.str s) g = .ok (JVal.str t, g')) ∧
    (∃ t g', mutate_string (JVal.str s) g = .ok (JVal.str t, g')) :=
  ⟨fun i => string_strategy_str_ok i s g, mutate_string_str_ok s g⟩

end JSONMutator
